import Mathlib

/-!
# CDR reconciliation engine: a shallow embedding

This file embeds the reconciliation engine of the CDR-compare repository
(`src/app/api/process/route.ts`) in Lean 4 and proves the properties stated
in its specification.

Modelling conventions:
* JS numbers are modelled as `ℚ` (exact arithmetic); normalized durations and
  epoch timestamps as `ℤ`; row ids and indices as `ℕ`.
* Strings reaching the normalizers are modelled either as `List Char`
  (phone numbers, where the code only filters digits and strips prefixes) or
  by the parse result the JS runtime would produce (timestamps, durations and
  rates, where the code delegates to `parseFloat` / `new Date`).
* The scratch SQL store is modelled relationally: tables are lists of rows,
  the matching join is a filtered product, and the `ORDER BY` is a sort.
-/

namespace CDRCompare

/-- JS `Math.round`: round half toward positive infinity. -/
def roundJS (q : ℚ) : ℤ := ⌊q + 1/2⌋

/-- JS `ToInteger` (used by `Date` time-value clipping): truncate toward zero. -/
def jsTrunc (q : ℚ) : ℤ := if 0 ≤ q then ⌊q⌋ else ⌈q⌉

/-- Input to `normalizeDuration` / `normalizeRate` (`string | number | null |
undefined` in the source).  A non-empty string is represented by its JS
`parseFloat` result, `none` standing for `NaN`. -/
inductive NumInput where
  | nullish
  | emptyStr
  | num (q : ℚ)
  | str (parsed : Option ℚ)
deriving DecidableEq

/-- `normalizeDuration` from `route.ts`: null/undefined/"" ↦ 0, `NaN` ↦ 0,
otherwise `Math.round` of the numeric value. -/
def normalizeDuration : NumInput → ℤ
  | .nullish => 0
  | .emptyStr => 0
  | .num q => roundJS q
  | .str none => 0
  | .str (some q) => roundJS q

/-- `normalizeRate` from `route.ts`: null/undefined/"" ↦ 0, `NaN` ↦ 0,
otherwise the numeric value unchanged. -/
def normalizeRate : NumInput → ℚ
  | .nullish => 0
  | .emptyStr => 0
  | .num q => q
  | .str none => 0
  | .str (some q) => q

/-- `String(input).replace(/\D/g, "")`: keep the decimal digits. -/
def digitsOf (s : List Char) : List Char := s.filter Char.isDigit

/-- First prefix-stripping step of `normalizePhoneNumber`: 11 digits
starting `1` lose the `1`. -/
def stripOne (d : List Char) : List Char :=
  if d.length = 11 ∧ d.take 1 = ['1'] then d.drop 1 else d

/-- Second step: 12 digits starting `01` lose the `01`. -/
def stripZeroOne (d : List Char) : List Char :=
  if d.length = 12 ∧ d.take 2 = ['0', '1'] then d.drop 2 else d

/-- Third step: 13 digits starting `001` lose the `001`. -/
def stripZeroZeroOne (d : List Char) : List Char :=
  if d.length = 13 ∧ d.take 3 = ['0', '0', '1'] then d.drop 3 else d

/-- The three sequential prefix-stripping steps of `normalizePhoneNumber`,
applied in source order to the digit string. -/
def stripPrefixes (d : List Char) : List Char :=
  stripZeroZeroOne (stripZeroOne (stripOne d))

/-- `normalizePhoneNumber` from `route.ts`: null/undefined ↦ "",
otherwise keep digits and strip a leading country prefix. -/
def normalizePhoneNumber : Option (List Char) → List Char
  | none => []
  | some s => stripPrefixes (digitsOf s)

/-- Days from 1970-01-01 to the proleptic-Gregorian civil date y-m-d
(the arithmetic JS `Date` performs for ISO date strings). -/
def daysFromCivil (y m d : ℤ) : ℤ :=
  let y2 := y - (if m ≤ 2 then 1 else 0)
  let era := Int.fdiv y2 400
  let yoe := y2 - era * 400
  let mp := (m + 9) % 12
  let doy := Int.ediv (153 * mp + 2) 5 + d - 1
  let doe := yoe * 365 + Int.ediv yoe 4 - Int.ediv yoe 100 + doy
  era * 146097 + doe - 719468

/-- Epoch seconds of the UTC instant y-mo-d h:mi:s. -/
def epochOfUTC (y mo d h mi s : ℕ) : ℤ :=
  daysFromCivil y mo d * 86400 + h * 3600 + mi * 60 + s

/-- Gregorian leap year. -/
def isLeap (y : ℕ) : Bool := decide ((y % 4 = 0 ∧ y % 100 ≠ 0) ∨ y % 400 = 0)

/-- Days in a month, as JS `Date` validates ISO strings. -/
def daysInMonth (y mo : ℕ) : ℕ :=
  if mo = 2 then (if isLeap y then 29 else 28)
  else if mo = 4 ∨ mo = 6 ∨ mo = 9 ∨ mo = 11 then 30
  else 31

/-- Validity of the components the `M/D/YYYY H:mm[:ss]` branch feeds into an
ISO string: JS `Date` yields `NaN` outside these ranges. -/
def validDateTime (mo d y h mi s : ℕ) : Bool :=
  decide (1 ≤ mo ∧ mo ≤ 12 ∧ 1 ≤ d ∧ d ≤ daysInMonth y mo ∧ y ≤ 9999 ∧
    h ≤ 23 ∧ mi ≤ 59 ∧ s ≤ 59)

/-- Input to `normalizeTimestamp` (`string | number | Date | null | undefined`).
Strings are represented by shape: a match of the US `M/D/YYYY H:mm[:ss]` regex
carries its six components plus the permissive-parser fallback used when the
components make an invalid date; a string containing a timezone indicator
(`+`, `Z`, ` UTC`, ` GMT`) or any other string carries the epoch seconds JS
`Date` parsing would produce (`none` = unparseable). -/
inductive TSInput where
  | nullish
  | emptyStr
  | num (q : ℚ)
  | usDateTime (mo d y h mi s : ℕ) (fallback : Option ℚ)
  | tzStr (parsedEpochSec : Option ℤ)
  | otherStr (parsedEpochSec : Option ℤ)
deriving DecidableEq

/-- `new Date(1899, 11, 30).getTime()` on a host in UTC.  The constructor uses
the host's local time; theorems about the Excel branch quantify over the
actual epoch value where the offset matters. -/
def excelEpochUTCMs : ℤ := -2209161600000

/-- `normalizeTimestamp` from `route.ts`, parametrized by the epoch
milliseconds of `new Date(1899, 11, 30)` (host-timezone dependent).
Numeric input in (0, 100000) is read as an Excel serial date; above 10^10 as
epoch milliseconds; otherwise returned unchanged.  Matching string shapes are
parsed as described on `TSInput`. -/
def normalizeTimestamp (excelEpochMs : ℤ) : TSInput → Option ℚ
  | .nullish => none
  | .emptyStr => none
  | .num q =>
      if 0 < q ∧ q < 100000 then
        some ((Int.fdiv (jsTrunc ((excelEpochMs : ℚ) + q * 86400000)) 1000 : ℤ) : ℚ)
      else if 10000000000 < q then some ((⌊q / 1000⌋ : ℤ) : ℚ)
      else some q
  | .usDateTime mo d y h mi s fb =>
      if validDateTime mo d y h mi s then some ((epochOfUTC y mo d h mi s : ℤ) : ℚ)
      else fb
  | .tzStr p => p.map (fun z => (z : ℚ))
  | .otherStr p => p.map (fun z => (z : ℚ))

/-- Applying `normalizeTimestamp` to its own output: a numeric result is fed
back as a number, a null result as null. -/
def reapplyTimestamp (excelEpochMs : ℤ) (x : TSInput) : Option ℚ :=
  match normalizeTimestamp excelEpochMs x with
  | none => none
  | some q => normalizeTimestamp excelEpochMs (.num q)

/-- `calculateBillingIncrements` from `route.ts`: 0 for non-positive
durations, else `Math.ceil(d / 6)`. -/
def calculateBillingIncrements (d : ℤ) : ℤ :=
  if d ≤ 0 then 0 else ⌈(d : ℚ) / 6⌉

/-- `calculateCallCost` from `route.ts`: increments × (per-minute rate / 10). -/
def calculateCallCost (d : ℤ) (r : ℚ) : ℚ :=
  (calculateBillingIncrements d : ℚ) * (r / 10)

/-- The per-row summand of the SQL totals query:
`CASE WHEN billed_duration > 0 THEN ((billed_duration + 5) / 6) * rate / 10.0
ELSE 0 END`, with SQLite's truncating integer division on `(d + 5) / 6`. -/
def sqlRowCost (d : ℤ) (r : ℚ) : ℚ :=
  if 0 < d then ((Int.tdiv (d + 5) 6 : ℤ) : ℚ) * r / 10 else 0

/-- The discrepancy type tags of `route.ts` (the `Discrepancy["type"]` union),
including the hung-call tags consumed by the results page. -/
inductive DiscType where
  | missing_in_a
  | missing_in_b
  | zero_duration_in_a
  | zero_duration_in_b
  | duration_mismatch
  | rate_mismatch
  | cost_mismatch
  | lrn_mismatch
  | hung_call_yours
  | hung_call_provider
deriving DecidableEq, Repr, Fintype

/-- A staged canonical row (`records_a` / `records_b` schema): normalized
numbers, optional seize time, integer billed duration, per-minute rate,
normalized LRN and the 0-based source row index. -/
structure RecordRow where
  id : ℕ
  aNumber : String
  bNumber : String
  seizeTime : Option ℤ
  billedDuration : ℤ
  rate : ℚ
  lrn : String
  rawIndex : ℕ
deriving DecidableEq, Repr

/-- The `Discrepancy` record of `route.ts`. -/
structure Discrepancy where
  dtype : DiscType
  aNumber : String
  bNumber : String
  seizeTime : Option ℤ
  yourDuration : Option ℤ
  providerDuration : Option ℤ
  yourRate : Option ℚ
  providerRate : Option ℚ
  yourCost : Option ℚ
  providerCost : Option ℚ
  costDifference : ℚ
  yourLrn : Option String := none
  providerLrn : Option String := none
  sourceIndex : Option ℕ := none
  sourceIndexA : Option ℕ := none
  sourceIndexB : Option ℕ := none
  hungCallCount : Option ℕ := none
deriving DecidableEq, Repr

/-- `|cost_difference|`, the magnitude all rankings use. -/
def cdAbs (d : Discrepancy) : ℚ := |d.costDifference|

/-- `COALESCE(seize_time, 0)`. -/
def coalesce0 (o : Option ℤ) : ℤ := o.getD 0

/-- `TIME_TOLERANCE_SECONDS`. -/
def timeTolerance : ℤ := 60

/-- The join condition of the matching query: equal normalized numbers on
both fields and seize times (coalesced to 0) within the 60 s tolerance. -/
def canMatch (a b : RecordRow) : Bool :=
  decide (a.aNumber = b.aNumber ∧ a.bNumber = b.bNumber ∧
    |coalesce0 a.seizeTime - coalesce0 b.seizeTime| ≤ timeTolerance)

/-- `ABS(COALESCE(a.seize_time,0) - COALESCE(b.seize_time,0))` of a pair. -/
def timeDiff (p : RecordRow × RecordRow) : ℤ :=
  |coalesce0 p.1.seizeTime - coalesce0 p.2.seizeTime|

/-- `ABS(a.billed_duration - b.billed_duration)` of a pair. -/
def durDiff (p : RecordRow × RecordRow) : ℤ :=
  |p.1.billedDuration - p.2.billedDuration|

/-- The `ORDER BY` of the matching query: |Δtime| ascending, |Δduration|
ascending as tie-break. -/
def candLE (p q : RecordRow × RecordRow) : Prop :=
  timeDiff p < timeDiff q ∨ (timeDiff p = timeDiff q ∧ durDiff p ≤ durDiff q)

instance : DecidableRel candLE := fun p q => by
  unfold candLE; infer_instance

instance : IsTotal (RecordRow × RecordRow) candLE where
  total p q := by unfold candLE; omega

instance : IsTrans (RecordRow × RecordRow) candLE where
  trans p q r := by unfold candLE; omega

/-- The candidate stream of the matcher: the inner join of the two tables
under `canMatch`, ordered by `(|Δtime|, |Δduration|)`.  Ties beyond that key
are left to the SQL engine's row order; the sort here is stable in the
product order, one admissible choice. -/
def candidates (A B : List RecordRow) : List (RecordRow × RecordRow) :=
  List.insertionSort candLE ((A ×ˢ B).filter (fun p => canMatch p.1 p.2))

/-- The greedy 1-to-1 selection loop: accept a candidate only when neither
its A id nor its B id has been used, then mark both used. -/
def selectMatches : List (RecordRow × RecordRow) → List ℕ → List ℕ →
    List (RecordRow × RecordRow)
  | [], _, _ => []
  | p :: rest, usedA, usedB =>
    if p.1.id ∈ usedA ∨ p.2.id ∈ usedB then selectMatches rest usedA usedB
    else p :: selectMatches rest (p.1.id :: usedA) (p.2.id :: usedB)

/-- The matcher's output (`matches` in `route.ts`). -/
def matchedPairs (cs : List (RecordRow × RecordRow)) : List (RecordRow × RecordRow) :=
  selectMatches cs [] []

/-- The ids inserted into `matched_a_ids`. -/
def matchedAIds (ms : List (RecordRow × RecordRow)) : List ℕ := ms.map (fun p => p.1.id)

/-- The ids inserted into `matched_b_ids`. -/
def matchedBIds (ms : List (RecordRow × RecordRow)) : List ℕ := ms.map (fun p => p.2.id)

/-- The anti-join producing unmatched A rows. -/
def unmatchedA (A : List RecordRow) (ms : List (RecordRow × RecordRow)) : List RecordRow :=
  A.filter (fun r => decide (r.id ∉ matchedAIds ms))

/-- The anti-join producing unmatched B rows. -/
def unmatchedB (B : List RecordRow) (ms : List (RecordRow × RecordRow)) : List RecordRow :=
  B.filter (fun r => decide (r.id ∉ matchedBIds ms))

/-- The `> $0.0001` cost threshold. -/
def costThreshold : ℚ := 1/10000

/-- The LRN-mismatch test on a matched pair: the two LRNs differ and both are
truthy (non-empty) strings. -/
def hasLrnMismatch (a b : RecordRow) : Bool :=
  decide (a.lrn ≠ b.lrn ∧ a.lrn ≠ "" ∧ b.lrn ≠ "")

/-- The discrepancy pushed for an LRN mismatch. -/
def lrnDisc (a b : RecordRow) : Discrepancy :=
  { dtype := .lrn_mismatch
    aNumber := a.aNumber
    bNumber := a.bNumber
    seizeTime := a.seizeTime
    yourDuration := some a.billedDuration
    providerDuration := some b.billedDuration
    yourRate := some a.rate
    providerRate := some b.rate
    yourCost := some (calculateCallCost a.billedDuration a.rate)
    providerCost := some (calculateCallCost b.billedDuration b.rate)
    costDifference :=
      calculateCallCost a.billedDuration a.rate - calculateCallCost b.billedDuration b.rate
    yourLrn := some a.lrn
    providerLrn := some b.lrn
    sourceIndexA := some a.rawIndex
    sourceIndexB := some b.rawIndex }

/-- The primary-cause classification of a cost difference on a matched pair:
duration mismatch when only the duration moved, rate mismatch when only the
rate moved, cost mismatch otherwise. -/
def mismatchType (a b : RecordRow) : DiscType :=
  if |a.billedDuration - b.billedDuration| > 1 ∧ |a.rate - b.rate| ≤ costThreshold then
    .duration_mismatch
  else if |a.rate - b.rate| > costThreshold ∧ |a.billedDuration - b.billedDuration| ≤ 1 then
    .rate_mismatch
  else .cost_mismatch

/-- The discrepancy pushed for a cost difference on a matched pair. -/
def costDisc (a b : RecordRow) : Discrepancy :=
  { dtype := mismatchType a b
    aNumber := a.aNumber
    bNumber := a.bNumber
    seizeTime := a.seizeTime
    yourDuration := some a.billedDuration
    providerDuration := some b.billedDuration
    yourRate := some a.rate
    providerRate := some b.rate
    yourCost := some (calculateCallCost a.billedDuration a.rate)
    providerCost := some (calculateCallCost b.billedDuration b.rate)
    costDifference :=
      calculateCallCost a.billedDuration a.rate - calculateCallCost b.billedDuration b.rate
    sourceIndexA := some a.rawIndex
    sourceIndexB := some b.rawIndex }

/-- The discrepancies emitted while iterating one matched pair: the LRN
mismatch when present, then the cost-variant discrepancy when the cost gap
exceeds the threshold and no LRN mismatch was reported. -/
def matchDiscs (a b : RecordRow) : List Discrepancy :=
  (if hasLrnMismatch a b then [lrnDisc a b] else []) ++
    (if |calculateCallCost a.billedDuration a.rate -
          calculateCallCost b.billedDuration b.rate| > costThreshold ∧
        hasLrnMismatch a b = false then
      [costDisc a b]
    else [])

/-- The discrepancy emitted for an unmatched A row (missing in B): zero
duration separates unanswered attempts from billed calls. -/
def unmatchedADisc (r : RecordRow) : Discrepancy :=
  { dtype := if r.billedDuration = 0 then .zero_duration_in_b else .missing_in_b
    aNumber := r.aNumber
    bNumber := r.bNumber
    seizeTime := r.seizeTime
    yourDuration := some r.billedDuration
    providerDuration := none
    yourRate := some r.rate
    providerRate := none
    yourCost := some (calculateCallCost r.billedDuration r.rate)
    providerCost := none
    costDifference := calculateCallCost r.billedDuration r.rate
    sourceIndex := some r.rawIndex }

/-- The discrepancy emitted for an unmatched B row (missing in A). -/
def unmatchedBDisc (r : RecordRow) : Discrepancy :=
  { dtype := if r.billedDuration = 0 then .zero_duration_in_a else .missing_in_a
    aNumber := r.aNumber
    bNumber := r.bNumber
    seizeTime := r.seizeTime
    yourDuration := none
    providerDuration := some r.billedDuration
    yourRate := none
    providerRate := some r.rate
    yourCost := none
    providerCost := some (calculateCallCost r.billedDuration r.rate)
    costDifference := -(calculateCallCost r.billedDuration r.rate)
    sourceIndex := some r.rawIndex }

/-- The full discrepancy list in emission order: unmatched A, unmatched B,
then the matched pairs. -/
def buildDiscrepancies (unA unB : List RecordRow)
    (ms : List (RecordRow × RecordRow)) : List Discrepancy :=
  unA.map unmatchedADisc ++ unB.map unmatchedBDisc ++
    ms.flatMap (fun p => matchDiscs p.1 p.2)

/-- Summary field `zeroDurationInYours`: unmatched A rows with zero duration. -/
def zeroDurationInYours (A : List RecordRow) (ms : List (RecordRow × RecordRow)) : ℕ :=
  ((unmatchedA A ms).filter (fun r => decide (r.billedDuration = 0))).length

/-- Summary field `billedMissingInProvider` (`billedMissingInB` in the code):
unmatched A rows with non-zero duration — billed calls the provider lacks. -/
def billedMissingInProvider (A : List RecordRow) (ms : List (RecordRow × RecordRow)) : ℕ :=
  ((unmatchedA A ms).filter (fun r => decide (r.billedDuration ≠ 0))).length

/-- Summary field `zeroDurationInProvider`: unmatched B rows with zero duration. -/
def zeroDurationInProvider (B : List RecordRow) (ms : List (RecordRow × RecordRow)) : ℕ :=
  ((unmatchedB B ms).filter (fun r => decide (r.billedDuration = 0))).length

/-- Summary field `billedMissingInYours` (`billedMissingInA` in the code):
unmatched B rows with non-zero duration — billed calls your file lacks. -/
def billedMissingInYours (B : List RecordRow) (ms : List (RecordRow × RecordRow)) : ℕ :=
  ((unmatchedB B ms).filter (fun r => decide (r.billedDuration ≠ 0))).length

/-- `MAX_TOTAL`, the cap on the returned discrepancy list. -/
def maxTotal : ℕ := 5000

/-- `minPerCategory`, the per-type floor of the proportional sample. -/
def minPerCategory : ℕ := 100

/-- The distinct discrepancy types present, the keys of `byType`
(their relative order is abstracted; no stated property depends on it). -/
def typesOf (ds : List Discrepancy) : List DiscType := (ds.map (fun d => d.dtype)).dedup

/-- One `byType` bucket after its sort: the discrepancies of type `t` in
descending `|cost_difference|` order. -/
def byTypeSorted (ds : List Discrepancy) (t : DiscType) : List Discrepancy :=
  List.insertionSort (fun a b => cdAbs b ≤ cdAbs a)
    (ds.filter (fun d => decide (d.dtype = t)))

/-- `reservedSlots = types.length * minPerCategory`. -/
def reservedSlots (ds : List Discrepancy) : ℕ := (typesOf ds).length * minPerCategory

/-- `remainingSlots = MAX_TOTAL - Math.min(reservedSlots, MAX_TOTAL * 0.5)`. -/
def remainingSlots (ds : List Discrepancy) : ℕ := maxTotal - min (reservedSlots ds) 2500

/-- `takeCount = Math.min(len, Math.max(minPerCategory,
Math.floor(remainingSlots * len / totalCount)))` for one type, where `len`
is the type's bucket size. -/
def takeCountFor (ds : List Discrepancy) (t : DiscType) : ℕ :=
  min (ds.filter (fun d => decide (d.dtype = t))).length
    (max minPerCategory (remainingSlots ds *
      (ds.filter (fun d => decide (d.dtype = t))).length / ds.length))

/-- `sampledDiscrepancies`: everything when at most `MAX_TOTAL`, else the
per-type proportional sample taken from the top of each sorted bucket. -/
def sampledDiscrepancies (ds : List Discrepancy) : List Discrepancy :=
  if ds.length ≤ maxTotal then ds
  else (typesOf ds).flatMap (fun t => (byTypeSorted ds t).take (takeCountFor ds t))

/-- The `typeOrder` display ranks (absent types rank 99). -/
def typeOrderNum : DiscType → ℕ
  | .missing_in_a => 1
  | .lrn_mismatch => 2
  | .duration_mismatch => 3
  | .rate_mismatch => 4
  | .cost_mismatch => 5
  | .missing_in_b => 6
  | .zero_duration_in_a => 7
  | .zero_duration_in_b => 8
  | _ => 99

/-- The final display comparator: type order first, then `|cost_difference|`
descending. -/
def finalLE (a b : Discrepancy) : Prop :=
  typeOrderNum a.dtype < typeOrderNum b.dtype ∨
    (typeOrderNum a.dtype = typeOrderNum b.dtype ∧ cdAbs b ≤ cdAbs a)

instance : DecidableRel finalLE := fun a b => by
  unfold finalLE; infer_instance

instance : IsTotal Discrepancy finalLE where
  total a b := by
    unfold finalLE
    rcases lt_trichotomy (typeOrderNum a.dtype) (typeOrderNum b.dtype) with h | h | h
    · exact Or.inl (Or.inl h)
    · rcases le_total (cdAbs b) (cdAbs a) with g | g
      · exact Or.inl (Or.inr ⟨h, g⟩)
      · exact Or.inr (Or.inr ⟨h.symm, g⟩)
    · exact Or.inr (Or.inl h)

instance : IsTrans Discrepancy finalLE where
  trans a b c hab hbc := by
    unfold finalLE at *
    rcases hab with h | ⟨h, h'⟩ <;> rcases hbc with g | ⟨g, g'⟩
    · exact Or.inl (h.trans g)
    · exact Or.inl (g ▸ h)
    · exact Or.inl (h ▸ g)
    · exact Or.inr ⟨h.trans g, g'.trans h'⟩

/-- The list the endpoint returns: the sample sorted for display. -/
def returnedDiscrepancies (ds : List Discrepancy) : List Discrepancy :=
  List.insertionSort finalLE (sampledDiscrepancies ds)

/-- `hasMore: discrepancies.length > sampledDiscrepancies.length`. -/
def hasMore (ds : List Discrepancy) : Bool :=
  decide ((returnedDiscrepancies ds).length < ds.length)

/-- Modelled from the spec: the hung-call detector (spec §4.7) is not among
the repository's available source files — only the results page consuming its
`hung_call_*` discrepancies and `hungCalls*` summary fields is.  Per the
spec, rows here are the unmatched rows of one side.  `hungGroupSize` is the
number of unmatched rows sharing a billed duration. -/
def hungGroupSize (rows : List RecordRow) (d : ℤ) : ℕ :=
  (rows.filter (fun r => decide (r.billedDuration = d))).length

/-- Modelled from the spec: a duration value forms a hung-call group when it
exceeds 30 s and at least 3 unmatched rows carry it. -/
def isHungDuration (rows : List RecordRow) (d : ℤ) : Bool :=
  decide (30 < d ∧ 3 ≤ hungGroupSize rows d)

/-- Modelled from the spec: the distinct duration values with a hung group. -/
def hungDurations (rows : List RecordRow) : List ℤ :=
  ((rows.map (fun r => r.billedDuration)).dedup).filter (fun d => isHungDuration rows d)

/-- Modelled from the spec: the unmatched rows belonging to some hung group. -/
def hungRows (rows : List RecordRow) : List RecordRow :=
  rows.filter (fun r => isHungDuration rows r.billedDuration)

/-- Modelled from the spec: summary field `hung_calls_<side>`, the total
number of unmatched rows in hung groups. -/
def hungCallsCount (rows : List RecordRow) : ℕ := (hungRows rows).length

/-- Modelled from the spec: summary field `hung_call_groups_<side>`. -/
def hungCallGroupsCount (rows : List RecordRow) : ℕ := (hungDurations rows).length

/-- Modelled from the spec: the exemplar cap per side. -/
def hungExemplarLimit : ℕ := 200

/-- Modelled from the spec: ranking of hung rows by `rate × duration`,
highest first. -/
def hungRankGE (a b : RecordRow) : Prop :=
  b.rate * (b.billedDuration : ℚ) ≤ a.rate * (a.billedDuration : ℚ)

instance : DecidableRel hungRankGE := fun a b => by
  unfold hungRankGE; infer_instance

instance : IsTotal RecordRow hungRankGE where
  total _ _ := le_total _ _

instance : IsTrans RecordRow hungRankGE where
  trans _ _ _ hab hbc := hbc.trans hab

/-- Modelled from the spec: the hung rows of one side sorted by
`rate × duration` descending. -/
def hungSorted (rows : List RecordRow) : List RecordRow :=
  List.insertionSort hungRankGE (hungRows rows)

/-- Modelled from the spec: the up-to-200 exemplar rows of one side. -/
def hungExemplarRows (rows : List RecordRow) : List RecordRow :=
  (hungSorted rows).take hungExemplarLimit

/-- Modelled from the spec: the exemplar discrepancy built from one hung row
of the A ("yours") side, carrying the group size. -/
def hungDiscA (rows : List RecordRow) (r : RecordRow) : Discrepancy :=
  { dtype := .hung_call_yours
    aNumber := r.aNumber
    bNumber := r.bNumber
    seizeTime := r.seizeTime
    yourDuration := some r.billedDuration
    providerDuration := none
    yourRate := some r.rate
    providerRate := none
    yourCost := some (calculateCallCost r.billedDuration r.rate)
    providerCost := none
    costDifference := calculateCallCost r.billedDuration r.rate
    sourceIndex := some r.rawIndex
    hungCallCount := some (hungGroupSize rows r.billedDuration) }

/-- Modelled from the spec: the exemplar discrepancy for the B ("provider")
side. -/
def hungDiscB (rows : List RecordRow) (r : RecordRow) : Discrepancy :=
  { dtype := .hung_call_provider
    aNumber := r.aNumber
    bNumber := r.bNumber
    seizeTime := r.seizeTime
    yourDuration := none
    providerDuration := some r.billedDuration
    yourRate := none
    providerRate := some r.rate
    yourCost := none
    providerCost := some (calculateCallCost r.billedDuration r.rate)
    costDifference := -(calculateCallCost r.billedDuration r.rate)
    sourceIndex := some r.rawIndex
    hungCallCount := some (hungGroupSize rows r.billedDuration) }

/-- Modelled from the spec: the emitted `hung_call_yours` exemplars. -/
def hungExemplarsA (rows : List RecordRow) : List Discrepancy :=
  (hungExemplarRows rows).map (hungDiscA rows)

/-- Modelled from the spec: the emitted `hung_call_provider` exemplars. -/
def hungExemplarsB (rows : List RecordRow) : List Discrepancy :=
  (hungExemplarRows rows).map (hungDiscB rows)

/-- Modelled from the spec: the bounded collector's per-type retention cap
`K = 1000` (spec §4.9; the collector is not among the repository's available
source files). -/
def collectorK : ℕ := 1000

/-- Modelled from the spec: one per-type collector structure — the retained
list plus the running count and cost total kept regardless of retention. -/
structure CollectorState where
  retained : List Discrepancy
  count : ℕ
  costTotal : ℚ
deriving DecidableEq, Repr

/-- Modelled from the spec: the smallest `|cost_difference|` among the
retained discrepancies (0 for an empty list, which `collectorAdd` never
consults). -/
def minRetainedAbs : List Discrepancy → ℚ
  | [] => 0
  | d :: rest => rest.foldl (fun m e => min m (cdAbs e)) (cdAbs d)

/-- Modelled from the spec: replace the first retained entry whose
`|cost_difference|` equals `m`. -/
def replaceFirstMin (m : ℚ) (d : Discrepancy) : List Discrepancy → List Discrepancy
  | [] => []
  | x :: xs => if cdAbs x = m then d :: xs else x :: replaceFirstMin m d xs

/-- Modelled from the spec: `add(d)` — always count `d` and accumulate its
cost difference; append while the list holds fewer than `K`; once full,
replace the entry with the smallest `|cost_difference|` only when `d`'s own
magnitude is strictly greater, else drop `d`. -/
def collectorAdd (st : CollectorState) (d : Discrepancy) : CollectorState :=
  if st.retained.length < collectorK then
    { retained := st.retained ++ [d], count := st.count + 1,
      costTotal := st.costTotal + d.costDifference }
  else if minRetainedAbs st.retained < cdAbs d then
    { retained := replaceFirstMin (minRetainedAbs st.retained) d st.retained,
      count := st.count + 1, costTotal := st.costTotal + d.costDifference }
  else
    { retained := st.retained, count := st.count + 1,
      costTotal := st.costTotal + d.costDifference }

/-- Modelled from the spec: the empty collector. -/
def collectorInit : CollectorState := ⟨[], 0, 0⟩

/-- Modelled from the spec: feeding a discrepancy stream to one collector. -/
def collect (ds : List Discrepancy) : CollectorState :=
  ds.foldl collectorAdd collectorInit

/-- The collector's fold invariant over the discrepancies seen so far: exact
count and cost total, a retained list of size `min(seen, K)` drawn from the
seen stream, and every non-retained occurrence no larger (by
`|cost_difference|`) than every retained one. -/
def collInv (seen : List Discrepancy) (st : CollectorState) : Prop :=
  st.count = seen.length ∧
  st.costTotal = (seen.map (fun x => x.costDifference)).sum ∧
  st.retained.length = min seen.length collectorK ∧
  (∀ a : Discrepancy, st.retained.count a ≤ seen.count a) ∧
  (∀ a : Discrepancy, ∀ b ∈ st.retained,
    st.retained.count a < seen.count a → cdAbs a ≤ cdAbs b)

/-- A concrete A-side row (billed, no B counterpart) used to evaluate the
summary identities on a two-row job. -/
def exRowA : RecordRow :=
  { id := 1, aNumber := "111", bNumber := "222", seizeTime := some 0,
    billedDuration := 60, rate := 0, lrn := "", rawIndex := 0 }

/-- A concrete B-side row (zero duration, no A counterpart) for the same job. -/
def exRowB : RecordRow :=
  { id := 1, aNumber := "333", bNumber := "444", seizeTime := some 0,
    billedDuration := 0, rate := 0, lrn := "", rawIndex := 0 }

/-! ## Billing arithmetic -/

theorem ceil_div_six_eq_tdiv (d : ℤ) (hd : 0 < d) :
    ⌈(d : ℚ) / 6⌉ = Int.tdiv (d + 5) 6 := by
  have h1 : Int.tdiv (d + 5) 6 = (d + 5) / 6 :=
    Int.tdiv_eq_ediv (by omega) (by omega)
  have h2 : (-(d : ℚ)) / 6 = ((-d : ℤ) : ℚ) / ((6 : ℕ) : ℚ) := by push_cast; ring
  have h3 : ⌊((-d : ℤ) : ℚ) / ((6 : ℕ) : ℚ)⌋ = (-d) / (6 : ℤ) :=
    Rat.floor_intCast_div_natCast (-d) 6
  have h4 : ⌈(d : ℚ) / 6⌉ = -⌊-((d : ℚ) / 6)⌋ := by
    rw [Int.floor_neg]
    ring
  rw [h4, ← neg_div, h2, h3, h1]
  omega

theorem sqlRowCost_eq_calculateCallCost (d : ℤ) (r : ℚ) :
    sqlRowCost d r = calculateCallCost d r := by
  unfold sqlRowCost calculateCallCost calculateBillingIncrements
  by_cases hd : 0 < d
  · rw [if_pos hd, if_neg (by omega), ceil_div_six_eq_tdiv d hd]
    ring
  · rw [if_neg hd, if_pos (by omega)]
    simp

/-- C5: for every integer duration `d ≥ 0` and rate `r ≥ 0`, the SQL
aggregation summand `((d + 5) / 6) * r / 10.0` (integer division, 0 when
`d` is not positive) equals the application-code `calculateCallCost d r =
increments(d) × (r / 10)` with `increments(d) = 0` for `d ≤ 0` and
`⌈d / 6⌉` otherwise; consequently the per-side SQL summary total equals the
sum of per-row application-code call costs. -/
theorem C5_sql_total_refines_call_cost :
    (∀ (d : ℤ) (r : ℚ), 0 ≤ d → 0 ≤ r → sqlRowCost d r = calculateCallCost d r) ∧
    (∀ rows : List (ℤ × ℚ),
      (rows.map (fun p => sqlRowCost p.1 p.2)).sum =
        (rows.map (fun p => calculateCallCost p.1 p.2)).sum) := by
  constructor
  · intro d r _ _
    exact sqlRowCost_eq_calculateCallCost d r
  · intro rows
    induction rows with
    | nil => rfl
    | cons p rest ih =>
      simp only [List.map_cons, List.sum_cons, ih, sqlRowCost_eq_calculateCallCost]

/-! ## The matcher's candidate stream (C2) -/

theorem mem_candidates_iff (A B : List RecordRow) (p : RecordRow × RecordRow) :
    p ∈ candidates A B ↔
      p.1 ∈ A ∧ p.2 ∈ B ∧ p.1.aNumber = p.2.aNumber ∧ p.1.bNumber = p.2.bNumber ∧
        |coalesce0 p.1.seizeTime - coalesce0 p.2.seizeTime| ≤ 60 := by
  obtain ⟨p1, p2⟩ := p
  unfold candidates
  rw [(List.perm_insertionSort candLE _).mem_iff, List.mem_filter, List.mem_product]
  simp only [canMatch, timeTolerance, decide_eq_true_eq]
  tauto

/-- C2: two rows form a match candidate iff their normalized `a_number`s are
equal, their normalized `b_number`s are equal, and their seize times
(coalesced to 0 when missing) differ by at most 60 seconds; a 60-second gap
is within tolerance and a 61-second gap is not. -/
theorem C2_candidate_condition :
    (∀ (A B : List RecordRow) (p : RecordRow × RecordRow),
      p ∈ candidates A B ↔
        p.1 ∈ A ∧ p.2 ∈ B ∧ p.1.aNumber = p.2.aNumber ∧ p.1.bNumber = p.2.bNumber ∧
          |coalesce0 p.1.seizeTime - coalesce0 p.2.seizeTime| ≤ 60) ∧
    canMatch
      { id := 1, aNumber := "5551234567", bNumber := "5559876543",
        seizeTime := some 1000, billedDuration := 120, rate := 15/1000,
        lrn := "5559876543", rawIndex := 0 }
      { id := 1, aNumber := "5551234567", bNumber := "5559876543",
        seizeTime := some 1060, billedDuration := 120, rate := 15/1000,
        lrn := "5559876543", rawIndex := 0 } = true ∧
    canMatch
      { id := 1, aNumber := "5551234567", bNumber := "5559876543",
        seizeTime := some 1000, billedDuration := 120, rate := 15/1000,
        lrn := "5559876543", rawIndex := 0 }
      { id := 1, aNumber := "5551234567", bNumber := "5559876543",
        seizeTime := some 1061, billedDuration := 120, rate := 15/1000,
        lrn := "5559876543", rawIndex := 0 } = false := by
  refine ⟨mem_candidates_iff, by decide, by decide⟩

/-! ## The classifier (C3, C4) -/

/-- C3: on a matched pair, an LRN mismatch (both LRNs non-empty and
different) emits exactly the one `lrn_mismatch` discrepancy and suppresses
every cost variant regardless of the cost gap; otherwise a cost gap above
`$0.0001` emits exactly one discrepancy typed `duration_mismatch` when only
the duration moved, `rate_mismatch` when only the rate moved, and
`cost_mismatch` in all remaining cases; with no LRN mismatch and a cost gap
within the threshold, nothing is emitted. -/
theorem C3_matched_pair_classification :
    ∀ a b : RecordRow,
      (hasLrnMismatch a b = true ↔ a.lrn ≠ b.lrn ∧ a.lrn ≠ "" ∧ b.lrn ≠ "") ∧
      (hasLrnMismatch a b = true →
        matchDiscs a b = [lrnDisc a b] ∧ (lrnDisc a b).dtype = .lrn_mismatch) ∧
      (hasLrnMismatch a b = false →
        costThreshold <
            |calculateCallCost a.billedDuration a.rate -
              calculateCallCost b.billedDuration b.rate| →
          matchDiscs a b = [costDisc a b] ∧
          (1 < |a.billedDuration - b.billedDuration| ∧ |a.rate - b.rate| ≤ costThreshold →
            (costDisc a b).dtype = .duration_mismatch) ∧
          (costThreshold < |a.rate - b.rate| ∧ |a.billedDuration - b.billedDuration| ≤ 1 →
            (costDisc a b).dtype = .rate_mismatch) ∧
          (¬(1 < |a.billedDuration - b.billedDuration| ∧ |a.rate - b.rate| ≤ costThreshold) →
            ¬(costThreshold < |a.rate - b.rate| ∧ |a.billedDuration - b.billedDuration| ≤ 1) →
            (costDisc a b).dtype = .cost_mismatch)) ∧
      (hasLrnMismatch a b = false →
        |calculateCallCost a.billedDuration a.rate -
            calculateCallCost b.billedDuration b.rate| ≤ costThreshold →
          matchDiscs a b = []) := by
  intro a b
  refine ⟨by simp [hasLrnMismatch], ?_, ?_, ?_⟩
  · intro h
    constructor
    · simp [matchDiscs, h]
    · rfl
  · intro h hgt
    refine ⟨by simp [matchDiscs, h, hgt, gt_iff_lt], ?_, ?_, ?_⟩
    · intro hc
      simp [costDisc, mismatchType, hc.1, hc.2, gt_iff_lt]
    · intro hc
      by_cases hdur : 1 < |a.billedDuration - b.billedDuration|
      · exact absurd hc.2 (by omega)
      · simp [costDisc, mismatchType, hc.1, hc.2, gt_iff_lt, hdur, not_lt.mp hdur]
    · intro h1 h2
      simp only [costDisc, mismatchType, gt_iff_lt]
      rw [if_neg (by tauto), if_neg (by tauto)]
  · intro h hle
    simp [matchDiscs, h, not_lt.mpr hle]

/-- C4: every unmatched A row yields exactly one discrepancy —
`missing_in_b` when its duration is positive, `zero_duration_in_b` when it
is zero — with `your_cost = call_cost(duration, rate)`, no provider cost and
`cost_difference = +your_cost`; symmetrically an unmatched B row yields
`missing_in_a` / `zero_duration_in_a` with `cost_difference =
-provider_cost`; and every emitted discrepancy carrying both costs has
`cost_difference = your_cost - provider_cost`. -/
theorem C4_unmatched_records_and_cost_difference :
    (∀ r : RecordRow,
      (0 < r.billedDuration → (unmatchedADisc r).dtype = .missing_in_b) ∧
      (r.billedDuration = 0 → (unmatchedADisc r).dtype = .zero_duration_in_b) ∧
      (unmatchedADisc r).yourCost = some (calculateCallCost r.billedDuration r.rate) ∧
      (unmatchedADisc r).providerCost = none ∧
      (unmatchedADisc r).costDifference = calculateCallCost r.billedDuration r.rate) ∧
    (∀ r : RecordRow,
      (0 < r.billedDuration → (unmatchedBDisc r).dtype = .missing_in_a) ∧
      (r.billedDuration = 0 → (unmatchedBDisc r).dtype = .zero_duration_in_a) ∧
      (unmatchedBDisc r).providerCost = some (calculateCallCost r.billedDuration r.rate) ∧
      (unmatchedBDisc r).yourCost = none ∧
      (unmatchedBDisc r).costDifference = -(calculateCallCost r.billedDuration r.rate)) ∧
    (∀ (unA unB : List RecordRow) (ms : List (RecordRow × RecordRow)),
      ∀ d ∈ buildDiscrepancies unA unB ms, ∀ yc pc,
        d.yourCost = some yc → d.providerCost = some pc →
          d.costDifference = yc - pc) := by
  refine ⟨?_, ?_, ?_⟩
  · intro r
    refine ⟨fun h => ?_, fun h => ?_, rfl, rfl, rfl⟩
    · simp [unmatchedADisc, show ¬ r.billedDuration = 0 by omega]
    · simp [unmatchedADisc, h]
  · intro r
    refine ⟨fun h => ?_, fun h => ?_, rfl, rfl, rfl⟩
    · simp [unmatchedBDisc, show ¬ r.billedDuration = 0 by omega]
    · simp [unmatchedBDisc, h]
  · intro unA unB ms d hd yc pc hyc hpc
    unfold buildDiscrepancies at hd
    rw [List.mem_append, List.mem_append] at hd
    rcases hd with (hd | hd) | hd
    · obtain ⟨r, _, rfl⟩ := List.mem_map.mp hd
      exact absurd hpc (by simp [unmatchedADisc])
    · obtain ⟨r, _, rfl⟩ := List.mem_map.mp hd
      exact absurd hyc (by simp [unmatchedBDisc])
    · obtain ⟨p, _, hp⟩ := List.mem_flatMap.mp hd
      unfold matchDiscs at hp
      rw [List.mem_append] at hp
      rcases hp with hp | hp
      · split at hp
        · rw [List.mem_singleton] at hp
          subst hp
          simp only [lrnDisc, Option.some.injEq] at hyc hpc
          simp [lrnDisc, ← hyc, ← hpc]
        · exact absurd hp (List.not_mem_nil d)
      · split at hp
        · rw [List.mem_singleton] at hp
          subst hp
          simp only [costDisc, Option.some.injEq] at hyc hpc
          simp [costDisc, ← hyc, ← hpc]
        · exact absurd hp (List.not_mem_nil d)

/-! ## Greedy one-to-one matching (C1) -/

theorem selectMatches_subset :
    ∀ (cs : List (RecordRow × RecordRow)) (uA uB : List ℕ),
      selectMatches cs uA uB ⊆ cs := by
  intro cs
  induction cs with
  | nil => intro uA uB; simp [selectMatches]
  | cons q rest ih =>
    intro uA uB p hp
    rw [selectMatches] at hp
    split at hp
    · exact List.mem_cons_of_mem q (ih _ _ hp)
    · rcases List.mem_cons.mp hp with h | h
      · exact h ▸ List.mem_cons_self q rest
      · exact List.mem_cons_of_mem q (ih _ _ h)

theorem selectMatches_fresh :
    ∀ (cs : List (RecordRow × RecordRow)) (uA uB : List ℕ),
      ∀ p ∈ selectMatches cs uA uB, p.1.id ∉ uA ∧ p.2.id ∉ uB := by
  intro cs
  induction cs with
  | nil => intro uA uB; simp [selectMatches]
  | cons q rest ih =>
    intro uA uB p hp
    rw [selectMatches] at hp
    split at hp
    · exact ih _ _ p hp
    · next hq =>
      rcases List.mem_cons.mp hp with h | h
      · subst h
        push_neg at hq
        exact hq
      · have := ih _ _ p h
        refine ⟨fun hmem => this.1 (List.mem_cons_of_mem _ hmem),
          fun hmem => this.2 (List.mem_cons_of_mem _ hmem)⟩

theorem selectMatches_pairwise :
    ∀ (cs : List (RecordRow × RecordRow)) (uA uB : List ℕ),
      (selectMatches cs uA uB).Pairwise
        (fun p q => p.1.id ≠ q.1.id ∧ p.2.id ≠ q.2.id) := by
  intro cs
  induction cs with
  | nil => intro uA uB; simp [selectMatches]
  | cons q rest ih =>
    intro uA uB
    rw [selectMatches]
    split
    · exact ih _ _
    · refine List.Pairwise.cons ?_ (ih _ _)
      intro p hp
      have := selectMatches_fresh rest _ _ p hp
      constructor
      · exact fun h => this.1 (h ▸ List.mem_cons_self _ _)
      · exact fun h => this.2 (h ▸ List.mem_cons_self _ _)

theorem matchedAIds_nodup (cs : List (RecordRow × RecordRow)) :
    (matchedAIds (matchedPairs cs)).Nodup := by
  unfold matchedAIds
  refine List.Pairwise.map _ ?_ (selectMatches_pairwise cs [] [])
  exact fun p q h => h.1

theorem matchedBIds_nodup (cs : List (RecordRow × RecordRow)) :
    (matchedBIds (matchedPairs cs)).Nodup := by
  unfold matchedBIds
  refine List.Pairwise.map _ ?_ (selectMatches_pairwise cs [] [])
  exact fun p q h => h.2

/-- C1: the greedy selection over the ordered candidate stream accepts a pair
only when neither of its ids was accepted before, so in the resulting match
set no A row id and no B row id occurs in more than one pair (and every
selected pair comes from the candidate stream). -/
theorem C1_matching_is_one_to_one :
    ∀ cs : List (RecordRow × RecordRow),
      (matchedPairs cs).Pairwise (fun p q => p.1.id ≠ q.1.id ∧ p.2.id ≠ q.2.id) ∧
      matchedPairs cs ⊆ cs ∧
      (matchedAIds (matchedPairs cs)).Nodup ∧
      (matchedBIds (matchedPairs cs)).Nodup := by
  intro cs
  exact ⟨selectMatches_pairwise cs [] [], selectMatches_subset cs [] [],
    matchedAIds_nodup cs, matchedBIds_nodup cs⟩

/-! ## Summary record counts (C8) -/

theorem length_filter_add_length_filter_not (l : List RecordRow) (p : RecordRow → Bool) :
    (l.filter p).length + (l.filter (fun x => !(p x))).length = l.length := by
  have h := (List.filter_append_perm p l).length_eq
  simpa [List.length_append] using h

theorem length_filter_mem_of_nodup (l : List RecordRow) (S : List ℕ)
    (hl : (l.map (fun r => r.id)).Nodup) (hS : S.Nodup)
    (hsub : ∀ s ∈ S, s ∈ l.map (fun r => r.id)) :
    (l.filter (fun r => decide (r.id ∈ S))).length = S.length := by
  have hmap : (l.map (fun r => r.id)).filter (fun i => decide (i ∈ S)) =
      (l.filter (fun r => decide (r.id ∈ S))).map (fun r => r.id) := by
    rw [List.filter_map]
    rfl
  have hperm : ((l.map (fun r => r.id)).filter (fun i => decide (i ∈ S))).Perm S := by
    rw [List.perm_ext_iff_of_nodup (hl.filter _) hS]
    intro a
    rw [List.mem_filter]
    constructor
    · intro h
      simpa using h.2
    · intro h
      exact ⟨hsub a h, by simpa using h⟩
  have := hperm.length_eq
  rw [hmap] at this
  simpa using this

theorem side_record_count (L : List RecordRow) (S : List ℕ)
    (hL : (L.map (fun r => r.id)).Nodup) (hS : S.Nodup)
    (hsub : ∀ s ∈ S, s ∈ L.map (fun r => r.id)) :
    S.length +
      ((L.filter (fun r => decide (r.id ∉ S))).filter
        (fun r => decide (r.billedDuration ≠ 0))).length +
      ((L.filter (fun r => decide (r.id ∉ S))).filter
        (fun r => decide (r.billedDuration = 0))).length = L.length := by
  have hsplit := length_filter_add_length_filter_not
    (L.filter (fun r => decide (r.id ∉ S))) (fun r => decide (r.billedDuration = 0))
  have hnotnot : ((L.filter (fun r => decide (r.id ∉ S))).filter
      (fun r => !(decide (r.billedDuration = 0)))).length =
      ((L.filter (fun r => decide (r.id ∉ S))).filter
        (fun r => decide (r.billedDuration ≠ 0))).length := by
    congr 1
    apply List.filter_congr
    intro x _
    simp
  have hmem := length_filter_mem_of_nodup L S hL hS hsub
  have hcompl := length_filter_add_length_filter_not L (fun r => decide (r.id ∈ S))
  have hnot : (L.filter (fun x => !(decide (x.id ∈ S)))).length =
      (L.filter (fun r => decide (r.id ∉ S))).length := by
    congr 1
    apply List.filter_congr
    intro x _
    simp
  omega

theorem matched_fst_mem (A B : List RecordRow) :
    ∀ p ∈ matchedPairs (candidates A B), p.1 ∈ A ∧ p.2 ∈ B := by
  intro p hp
  have hc := selectMatches_subset (candidates A B) [] [] hp
  have := (mem_candidates_iff A B p).mp hc
  exact ⟨this.1, this.2.1⟩

/-- C8 corrected: `matched_records + billed_missing_in_provider +
zero_duration_in_yours = total_records_a` and `matched_records +
billed_missing_in_yours + zero_duration_in_provider = total_records_b` —
the zero/billed split of the unmatched A rows is published as
`zeroDurationInYours` / `billedMissingInProvider`, that of the unmatched B
rows as `zeroDurationInProvider` / `billedMissingInYours`. -/
theorem C8_amended_summary_identity (A B : List RecordRow)
    (hA : (A.map (fun r => r.id)).Nodup) (hB : (B.map (fun r => r.id)).Nodup) :
    (matchedPairs (candidates A B)).length +
        billedMissingInProvider A (matchedPairs (candidates A B)) +
        zeroDurationInYours A (matchedPairs (candidates A B)) = A.length ∧
      (matchedPairs (candidates A B)).length +
        billedMissingInYours B (matchedPairs (candidates A B)) +
        zeroDurationInProvider B (matchedPairs (candidates A B)) = B.length := by
  constructor
  · have hsub : ∀ s ∈ matchedAIds (matchedPairs (candidates A B)),
        s ∈ A.map (fun r => r.id) := by
      intro s hs
      obtain ⟨p, hp, rfl⟩ := List.mem_map.mp hs
      exact List.mem_map.mpr ⟨p.1, (matched_fst_mem A B p hp).1, rfl⟩
    have h := side_record_count A (matchedAIds (matchedPairs (candidates A B)))
      hA (matchedAIds_nodup (candidates A B)) hsub
    have hlen : (matchedAIds (matchedPairs (candidates A B))).length =
        (matchedPairs (candidates A B)).length := List.length_map _ _
    unfold billedMissingInProvider zeroDurationInYours unmatchedA
    omega
  · have hsub : ∀ s ∈ matchedBIds (matchedPairs (candidates A B)),
        s ∈ B.map (fun r => r.id) := by
      intro s hs
      obtain ⟨p, hp, rfl⟩ := List.mem_map.mp hs
      exact List.mem_map.mpr ⟨p.2, (matched_fst_mem A B p hp).2, rfl⟩
    have h := side_record_count B (matchedBIds (matchedPairs (candidates A B)))
      hB (matchedBIds_nodup (candidates A B)) hsub
    have hlen : (matchedBIds (matchedPairs (candidates A B))).length =
        (matchedPairs (candidates A B)).length := List.length_map _ _
    unfold billedMissingInYours zeroDurationInProvider unmatchedB
    omega

/-- C8 as stated is false of the code: on a job whose single A row is billed
(duration 60) and whose single B row has zero duration, nothing matches and
`matched_records + billed_missing_in_yours + zero_duration_in_yours = 0`,
not `total_records_a = 1` — `billedMissingInYours` counts unmatched B rows,
not the billed split of unmatched A. -/
theorem C8_counterexample :
    ¬ ((matchedPairs (candidates [exRowA] [exRowB])).length +
        billedMissingInYours [exRowB] (matchedPairs (candidates [exRowA] [exRowB])) +
        zeroDurationInYours [exRowA] (matchedPairs (candidates [exRowA] [exRowB])) =
        ([exRowA] : List RecordRow).length) := by
  decide

/-- The amended summary identity evaluated on the same concrete two-row job. -/
theorem C8_witness :
    (matchedPairs (candidates [exRowA] [exRowB])).length +
        billedMissingInProvider [exRowA] (matchedPairs (candidates [exRowA] [exRowB])) +
        zeroDurationInYours [exRowA] (matchedPairs (candidates [exRowA] [exRowB])) =
        ([exRowA] : List RecordRow).length ∧
      (matchedPairs (candidates [exRowA] [exRowB])).length +
        billedMissingInYours [exRowB] (matchedPairs (candidates [exRowA] [exRowB])) +
        zeroDurationInProvider [exRowB] (matchedPairs (candidates [exRowA] [exRowB])) =
        ([exRowB] : List RecordRow).length :=
  C8_amended_summary_identity [exRowA] [exRowB] (by decide) (by decide)

/-! ## Normalization idempotence (C9) -/

theorem digitsOf_digit (s : List Char) : ∀ c ∈ digitsOf s, c.isDigit := by
  intro c hc
  exact List.of_mem_filter hc

theorem digitsOf_eq_self (l : List Char) (h : ∀ c ∈ l, c.isDigit) :
    digitsOf l = l :=
  List.filter_eq_self.mpr h

theorem stripOne_subset (d : List Char) : stripOne d ⊆ d := by
  intro c hc
  unfold stripOne at hc
  split_ifs at hc
  · exact List.drop_subset _ _ hc
  · exact hc

theorem stripZeroOne_subset (d : List Char) : stripZeroOne d ⊆ d := by
  intro c hc
  unfold stripZeroOne at hc
  split_ifs at hc
  · exact List.drop_subset _ _ hc
  · exact hc

theorem stripZeroZeroOne_subset (d : List Char) : stripZeroZeroOne d ⊆ d := by
  intro c hc
  unfold stripZeroZeroOne at hc
  split_ifs at hc
  · exact List.drop_subset _ _ hc
  · exact hc

theorem stripPrefixes_subset (d : List Char) : stripPrefixes d ⊆ d := fun _ hc =>
  stripOne_subset d (stripZeroOne_subset _ (stripZeroZeroOne_subset _ hc))

theorem stripOne_of_length_ne (d : List Char) (h : d.length ≠ 11) : stripOne d = d :=
  if_neg (by tauto)

theorem stripZeroOne_of_length_ne (d : List Char) (h : d.length ≠ 12) :
    stripZeroOne d = d :=
  if_neg (by tauto)

theorem stripZeroZeroOne_of_length_ne (d : List Char) (h : d.length ≠ 13) :
    stripZeroZeroOne d = d :=
  if_neg (by tauto)

theorem stripPrefixes_length_ten (d : List Char) (h : d.length = 10) :
    stripPrefixes d = d := by
  unfold stripPrefixes
  rw [stripOne_of_length_ne d (by omega), stripZeroOne_of_length_ne d (by omega),
    stripZeroZeroOne_of_length_ne d (by omega)]

theorem stripPrefixes_cases (d : List Char) :
    stripPrefixes d = d ∨ (stripPrefixes d).length = 10 := by
  unfold stripPrefixes
  by_cases h1 : d.length = 11 ∧ d.take 1 = ['1']
  · right
    have h10 : (stripOne d).length = 10 := by
      simp [stripOne, h1, h1.1]
    rw [stripZeroOne_of_length_ne _ (by omega), stripZeroZeroOne_of_length_ne _ (by omega)]
    exact h10
  · rw [show stripOne d = d from if_neg h1]
    by_cases h2 : d.length = 12 ∧ d.take 2 = ['0', '1']
    · right
      have h10 : (stripZeroOne d).length = 10 := by
        simp [stripZeroOne, h2, h2.1]
      rw [stripZeroZeroOne_of_length_ne _ (by omega)]
      exact h10
    · rw [show stripZeroOne d = d from if_neg h2]
      by_cases h3 : d.length = 13 ∧ d.take 3 = ['0', '0', '1']
      · right
        simp [stripZeroZeroOne, h3, h3.1]
      · left
        exact if_neg h3

theorem stripPrefixes_idem (d : List Char) :
    stripPrefixes (stripPrefixes d) = stripPrefixes d := by
  rcases stripPrefixes_cases d with h | h
  · rw [h]
    exact h
  · exact stripPrefixes_length_ten _ h

theorem normalizePhoneNumber_idem (s : Option (List Char)) :
    normalizePhoneNumber (some (normalizePhoneNumber s)) = normalizePhoneNumber s := by
  cases s with
  | none => decide
  | some l =>
    show stripPrefixes (digitsOf (stripPrefixes (digitsOf l))) = stripPrefixes (digitsOf l)
    rw [digitsOf_eq_self (stripPrefixes (digitsOf l))
      (fun c hc => digitsOf_digit l c (stripPrefixes_subset _ hc))]
    exact stripPrefixes_idem (digitsOf l)

theorem roundJS_intCast (z : ℤ) : roundJS (z : ℚ) = z := by
  unfold roundJS
  rw [Int.floor_int_add]
  norm_num

theorem jsTrunc_intCast (z : ℤ) : jsTrunc (z : ℚ) = z := by
  unfold jsTrunc
  split_ifs
  · exact Int.floor_intCast z
  · exact Int.ceil_intCast z

theorem normalizeTimestamp_fix (E : ℤ) (q : ℚ)
    (h : q ≤ 0 ∨ (100000 ≤ q ∧ q ≤ 10000000000)) :
    normalizeTimestamp E (.num q) = some q := by
  simp only [normalizeTimestamp]
  rw [if_neg (by rcases h with h | h <;> push_neg <;> intro h' <;> [linarith; linarith]),
    if_neg (by rcases h with h | h <;> push_neg <;> linarith)]

/-- C9 amended: `normalize_phone`, `normalize_duration` and `normalize_rate`
are idempotent on their whole domains; `normalize_timestamp` is idempotent on
every input it maps to null, to a non-positive epoch, or to an epoch in
[100000, 10^10] — outside the windows a second application reinterprets (the
spreadsheet-serial window (0, 100000) and the milliseconds window above
10^10). -/
theorem C9_amended_normalization_idempotence :
    (∀ s, normalizePhoneNumber (some (normalizePhoneNumber s)) = normalizePhoneNumber s) ∧
    (∀ x, normalizeDuration (.num ((normalizeDuration x : ℤ) : ℚ)) = normalizeDuration x) ∧
    (∀ x, normalizeRate (.num (normalizeRate x)) = normalizeRate x) ∧
    (∀ (E : ℤ) (x : TSInput), normalizeTimestamp E x = none → reapplyTimestamp E x = none) ∧
    (∀ (E : ℤ) (x : TSInput) (q : ℚ), normalizeTimestamp E x = some q →
      q ≤ 0 ∨ (100000 ≤ q ∧ q ≤ 10000000000) →
      reapplyTimestamp E x = normalizeTimestamp E x) := by
  refine ⟨normalizePhoneNumber_idem, ?_, ?_, ?_, ?_⟩
  · intro x
    show roundJS _ = _
    exact roundJS_intCast (normalizeDuration x)
  · intro x
    rfl
  · intro E x h
    unfold reapplyTimestamp
    rw [h]
  · intro E x q hq h
    unfold reapplyTimestamp
    rw [hq]
    exact normalizeTimestamp_fix E q h

/-- C9 as stated is false for `normalize_timestamp`: the US-format string
"1/1/1970 1:00" normalizes to epoch 3600, and renormalizing 3600 (a number
in the spreadsheet-serial window) interprets it as an Excel serial date,
giving an epoch in 1909 instead of 3600 (computed here for a UTC host; any
real timezone offset moves the result by under a day and cannot reach 3600). -/
theorem C9_counterexample :
    reapplyTimestamp excelEpochUTCMs (.usDateTime 1 1 1970 1 0 0 none) ≠
      normalizeTimestamp excelEpochUTCMs (.usDateTime 1 1 1970 1 0 0 none) := by
  have hval : validDateTime 1 1 1970 1 0 0 = true := by decide
  have hep : epochOfUTC 1970 1 1 1 0 0 = 3600 := by decide
  have h1 : normalizeTimestamp excelEpochUTCMs (.usDateTime 1 1 1970 1 0 0 none) =
      some 3600 := by
    simp only [normalizeTimestamp, hval, if_true, hep]
    norm_num
  have h2 : normalizeTimestamp excelEpochUTCMs (.num 3600) =
      some ((-1898121600 : ℤ) : ℚ) := by
    simp only [normalizeTimestamp]
    rw [if_pos (by norm_num)]
    have harg : (excelEpochUTCMs : ℚ) + 3600 * 86400000 = ((-1898121600000 : ℤ) : ℚ) := by
      norm_num [excelEpochUTCMs]
    rw [harg, jsTrunc_intCast, show Int.fdiv (-1898121600000) 1000 = -1898121600 by decide]
  unfold reapplyTimestamp
  rw [h1]
  show normalizeTimestamp excelEpochUTCMs (.num 3600) ≠ some 3600
  rw [h2]
  intro hcontr
  rw [Option.some.injEq] at hcontr
  norm_num at hcontr

/-- The amended timestamp idempotence evaluated at a concrete safe input:
an ISO timezone-tagged string parsed to epoch 1000000 renormalizes to itself. -/
theorem C9_witness :
    reapplyTimestamp excelEpochUTCMs (.tzStr (some 1000000)) =
      normalizeTimestamp excelEpochUTCMs (.tzStr (some 1000000)) :=
  C9_amended_normalization_idempotence.2.2.2.2 excelEpochUTCMs (.tzStr (some 1000000))
    1000000 (by decide) (by norm_num)

/-! ## Grouping by key: partition lemmas shared by the hung-call detector
and the sampler -/

theorem flatMap_congr {α β : Type} (l : List α) (f g : α → List β)
    (h : ∀ a ∈ l, f a = g a) : l.flatMap f = l.flatMap g := by
  induction l with
  | nil => rfl
  | cons a t ih =>
    rw [List.flatMap_cons, List.flatMap_cons, h a (List.mem_cons_self a t),
      ih (fun x hx => h x (List.mem_cons_of_mem a hx))]

theorem partition_flatMap_perm {α κ : Type} [DecidableEq κ] (key : α → κ) :
    ∀ (ks : List κ) (l : List α), ks.Nodup → (∀ x ∈ l, key x ∈ ks) →
      (ks.flatMap (fun k => l.filter (fun x => decide (key x = k)))).Perm l := by
  intro ks
  induction ks with
  | nil =>
    intro l _ hl
    have : l = [] := by
      cases l with
      | nil => rfl
      | cons a t => exact absurd (hl a (List.mem_cons_self a t)) (List.not_mem_nil _)
    simp [this]
  | cons k ks ih =>
    intro l hnd hl
    rw [List.flatMap_cons]
    have hcongr : ks.flatMap (fun k' => l.filter (fun x => decide (key x = k'))) =
        ks.flatMap (fun k' =>
          (l.filter (fun x => !(decide (key x = k)))).filter
            (fun x => decide (key x = k'))) := by
      apply flatMap_congr
      intro k' hk'
      rw [List.filter_filter]
      apply List.filter_congr
      intro x _
      by_cases hx : key x = k'
      · have hne : ¬ key x = k := by
          intro hh
          exact (List.nodup_cons.mp hnd).1
            (by rw [show k = k' from hh.symm.trans hx]; exact hk')
        have hkk : ¬ k' = k := fun hh => hne (hx.trans hh)
        simp [hx, hne, hkk]
      · simp [hx]
    rw [hcongr]
    have hperm := ih (l.filter (fun x => !(decide (key x = k))))
      (List.nodup_cons.mp hnd).2
      (by
        intro x hx
        have hmem := List.mem_of_mem_filter hx
        have hne : ¬ key x = k := by
          have := List.of_mem_filter hx
          simpa using this
        rcases List.mem_cons.mp (hl x hmem) with h | h
        · exact absurd h hne
        · exact h)
    exact (hperm.append_left (l.filter (fun x => decide (key x = k)))).trans
      (List.filter_append_perm _ l)

theorem filter_flatMap_buckets {α κ : Type} [DecidableEq κ] (key : α → κ)
    (g : κ → List α) (hg : ∀ k, ∀ x ∈ g k, key x = k) :
    ∀ (ks : List κ), ks.Nodup → ∀ t,
      (ks.flatMap g).filter (fun x => decide (key x = t)) =
        if t ∈ ks then g t else [] := by
  intro ks
  induction ks with
  | nil => intro _ t; simp
  | cons k ks ih =>
    intro hnd t
    rw [List.flatMap_cons, List.filter_append, ih (List.nodup_cons.mp hnd).2 t]
    by_cases hk : t = k
    · subst hk
      rw [List.filter_eq_self.mpr (fun x hx => by simp [hg t x hx]),
        if_neg (List.nodup_cons.mp hnd).1, if_pos (List.mem_cons_self t ks)]
      simp
    · rw [List.filter_eq_nil_iff.mpr (fun x hx => by simp [hg k x hx, hk, Ne.symm]),
        List.nil_append]
      by_cases ht : t ∈ ks
      · rw [if_pos ht, if_pos (List.mem_cons_of_mem k ht)]
      · rw [if_neg ht, if_neg (by
          intro hmem
          rcases List.mem_cons.mp hmem with h | h
          · exact hk h
          · exact ht h)]

/-! ## The hung-call detector (C6, modelled from the spec) -/

theorem hungRows_filter_duration (rows : List RecordRow) (d : ℤ)
    (hd : isHungDuration rows d = true) :
    (hungRows rows).filter (fun r => decide (r.billedDuration = d)) =
      rows.filter (fun r => decide (r.billedDuration = d)) := by
  unfold hungRows
  rw [List.filter_filter]
  apply List.filter_congr
  intro r _
  by_cases hr : r.billedDuration = d
  · simp [hr, hd]
  · simp [hr]

theorem mem_hungRows_iff (rows : List RecordRow) (r : RecordRow) :
    r ∈ hungRows rows ↔
      r ∈ rows ∧ 30 < r.billedDuration ∧ 3 ≤ hungGroupSize rows r.billedDuration := by
  unfold hungRows
  rw [List.mem_filter]
  simp [isHungDuration]

/-- C6 (modelled from the spec — the detector's code is not among the
available sources): per side, the hung groups are exactly the duration
values above 30 s carried by at least 3 unmatched rows; `hung_calls` is the
sum of the group sizes over the distinct hung durations; at most 200
exemplars are emitted, each typed `hung_call_yours` / `hung_call_provider`
for its side, carrying `hung_call_count` equal to its group size (which is
at least 3, for a duration above 30 s); and the exemplars are the hung rows
of highest `rate × duration`. -/
theorem C6_hung_call_detector :
    ∀ rows : List RecordRow,
      (hungExemplarsA rows).length ≤ 200 ∧
      (hungExemplarsB rows).length ≤ 200 ∧
      (∀ r, r ∈ hungRows rows ↔
        r ∈ rows ∧ 30 < r.billedDuration ∧ 3 ≤ hungGroupSize rows r.billedDuration) ∧
      hungCallsCount rows =
        ((hungDurations rows).map (fun d => hungGroupSize rows d)).sum ∧
      (∀ e ∈ hungExemplarsA rows, ∃ r ∈ hungRows rows,
        e = hungDiscA rows r ∧ e.dtype = .hung_call_yours ∧
        e.hungCallCount = some (hungGroupSize rows r.billedDuration) ∧
        30 < r.billedDuration ∧ 3 ≤ hungGroupSize rows r.billedDuration) ∧
      (∀ e ∈ hungExemplarsB rows, ∃ r ∈ hungRows rows,
        e = hungDiscB rows r ∧ e.dtype = .hung_call_provider ∧
        e.hungCallCount = some (hungGroupSize rows r.billedDuration)) ∧
      (∀ r ∈ hungExemplarRows rows, ∀ s ∈ (hungSorted rows).drop 200,
        s.rate * (s.billedDuration : ℚ) ≤ r.rate * (r.billedDuration : ℚ)) := by
  intro rows
  have hmemEx : ∀ r ∈ hungExemplarRows rows, r ∈ hungRows rows := by
    intro r hr
    have := List.take_subset hungExemplarLimit (hungSorted rows) hr
    exact (List.mem_insertionSort hungRankGE).mp this
  refine ⟨?_, ?_, mem_hungRows_iff rows, ?_, ?_, ?_, ?_⟩
  · unfold hungExemplarsA hungExemplarRows hungExemplarLimit
    rw [List.length_map, List.length_take]
    omega
  · unfold hungExemplarsB hungExemplarRows hungExemplarLimit
    rw [List.length_map, List.length_take]
    omega
  · have hnd : (hungDurations rows).Nodup :=
      (List.nodup_dedup _).filter _
    have hkey : ∀ r ∈ hungRows rows, r.billedDuration ∈ hungDurations rows := by
      intro r hr
      have hp := (mem_hungRows_iff rows r).mp hr
      unfold hungDurations
      rw [List.mem_filter]
      refine ⟨List.mem_dedup.mpr (List.mem_map.mpr ⟨r, hp.1, rfl⟩), ?_⟩
      simp [isHungDuration, hp.2.1, hp.2.2]
    have hperm := partition_flatMap_perm (fun r : RecordRow => r.billedDuration)
      (hungDurations rows) (hungRows rows) hnd hkey
    have hlen := hperm.length_eq
    rw [List.length_flatMap] at hlen
    unfold hungCallsCount
    rw [← hlen]
    congr 1
    apply List.map_congr_left
    intro d hd
    have hhung : isHungDuration rows d = true := (List.mem_filter.mp hd).2
    show ((hungRows rows).filter (fun r => decide (r.billedDuration = d))).length =
      hungGroupSize rows d
    rw [hungRows_filter_duration rows d hhung]
    rfl
  · intro e he
    obtain ⟨r, hr, rfl⟩ := List.mem_map.mp he
    have hmem := hmemEx r hr
    have hprops := (mem_hungRows_iff rows r).mp hmem
    exact ⟨r, hmem, rfl, rfl, rfl, hprops.2.1, hprops.2.2⟩
  · intro e he
    obtain ⟨r, hr, rfl⟩ := List.mem_map.mp he
    exact ⟨r, hmemEx r hr, rfl, rfl, rfl⟩
  · intro r hr s hs
    have hsorted : (hungSorted rows).Pairwise hungRankGE :=
      List.sorted_insertionSort hungRankGE (hungRows rows)
    rw [← List.take_append_drop 200 (hungSorted rows), List.pairwise_append] at hsorted
    exact hsorted.2.2 r (by simpa [hungExemplarRows, hungExemplarLimit] using hr) s hs

/-! ## The proportional sampler (C10) -/

theorem div_add_div_le (a b n : ℕ) : a / n + b / n ≤ (a + b) / n := by
  rcases Nat.eq_zero_or_pos n with h | h
  · simp [h]
  · rw [Nat.le_div_iff_mul_le h, Nat.add_mul]
    exact Nat.add_le_add (Nat.div_mul_le_self a n) (Nat.div_mul_le_self b n)

theorem sum_map_div_le {α : Type} (l : List α) (f : α → ℕ) (n : ℕ) :
    (l.map (fun a => f a / n)).sum ≤ (l.map f).sum / n := by
  induction l with
  | nil => simp
  | cons a t ih =>
    simp only [List.map_cons, List.sum_cons]
    calc f a / n + (t.map (fun a => f a / n)).sum
        ≤ f a / n + (t.map f).sum / n := Nat.add_le_add_left ih _
      _ ≤ (f a + (t.map f).sum) / n := div_add_div_le _ _ n

theorem sum_map_add_split {α : Type} (l : List α) (f g : α → ℕ) :
    (l.map (fun a => f a + g a)).sum = (l.map f).sum + (l.map g).sum := by
  induction l with
  | nil => rfl
  | cons a t ih =>
    simp only [List.map_cons, List.sum_cons, ih]
    omega

theorem typesOf_partition (ds : List Discrepancy) :
    ((typesOf ds).map
      (fun t => (ds.filter (fun d => decide (d.dtype = t))).length)).sum = ds.length := by
  have hnd : (typesOf ds).Nodup := List.nodup_dedup _
  have hkey : ∀ d ∈ ds, d.dtype ∈ typesOf ds := fun d hd =>
    List.mem_dedup.mpr (List.mem_map.mpr ⟨d, hd, rfl⟩)
  have hperm := partition_flatMap_perm (fun d : Discrepancy => d.dtype)
    (typesOf ds) ds hnd hkey
  have hlen := hperm.length_eq
  rw [List.length_flatMap] at hlen
  simpa [Function.comp] using hlen

theorem length_byTypeSorted (ds : List Discrepancy) (t : DiscType) :
    (byTypeSorted ds t).length = (ds.filter (fun d => decide (d.dtype = t))).length :=
  (List.perm_insertionSort _ _).length_eq

theorem mem_byTypeSorted (ds : List Discrepancy) (t : DiscType) :
    ∀ x ∈ byTypeSorted ds t, x.dtype = t := by
  intro x hx
  have hmem := (List.mem_insertionSort _).mp hx
  have := List.of_mem_filter hmem
  simpa using this

theorem length_bucket_take (ds : List Discrepancy) (t : DiscType) :
    ((byTypeSorted ds t).take (takeCountFor ds t)).length = takeCountFor ds t := by
  rw [List.length_take, length_byTypeSorted]
  have hle : takeCountFor ds t ≤ (ds.filter (fun d => decide (d.dtype = t))).length :=
    min_le_left _ _
  omega

theorem card_discType : Fintype.card DiscType = 10 := rfl

theorem sampled_length_le (ds : List Discrepancy) :
    (sampledDiscrepancies ds).length ≤ 5000 := by
  unfold sampledDiscrepancies
  split_ifs with h
  · simpa [maxTotal] using h
  · have hN : 5000 < ds.length := by simpa [maxTotal] using h
    rw [List.length_flatMap]
    have hT : (typesOf ds).length ≤ 10 := by
      calc (typesOf ds).length ≤ Fintype.card DiscType :=
            (List.nodup_dedup _).length_le_card
        _ = 10 := card_discType
    have h1 : ((typesOf ds).map
        (List.length ∘ fun t => (byTypeSorted ds t).take (takeCountFor ds t))).sum ≤
        ((typesOf ds).map (fun t => 100 + remainingSlots ds *
          (ds.filter (fun d => decide (d.dtype = t))).length / ds.length)).sum := by
      apply List.sum_le_sum
      intro t _
      show ((byTypeSorted ds t).take (takeCountFor ds t)).length ≤ _
      rw [length_bucket_take]
      unfold takeCountFor minPerCategory
      exact le_trans (min_le_right _ _)
        (max_le (Nat.le_add_right 100 _) (Nat.le_add_left _ 100))
    have h2 : ((typesOf ds).map (fun t => 100 + remainingSlots ds *
        (ds.filter (fun d => decide (d.dtype = t))).length / ds.length)).sum =
        100 * (typesOf ds).length + ((typesOf ds).map (fun t => remainingSlots ds *
          (ds.filter (fun d => decide (d.dtype = t))).length / ds.length)).sum := by
      rw [sum_map_add_split]
      simp [Nat.mul_comm]
    have h3 : ((typesOf ds).map (fun t => remainingSlots ds *
        (ds.filter (fun d => decide (d.dtype = t))).length / ds.length)).sum ≤
        remainingSlots ds := by
      calc ((typesOf ds).map (fun t => remainingSlots ds *
            (ds.filter (fun d => decide (d.dtype = t))).length / ds.length)).sum
          ≤ ((typesOf ds).map (fun t => remainingSlots ds *
              (ds.filter (fun d => decide (d.dtype = t))).length)).sum / ds.length :=
            sum_map_div_le _ _ _
        _ = remainingSlots ds * ds.length / ds.length := by
            rw [List.sum_map_mul_left, typesOf_partition]
        _ = remainingSlots ds := Nat.mul_div_cancel _ (by omega)
    have h4 : remainingSlots ds = 5000 - min ((typesOf ds).length * 100) 2500 := by
      unfold remainingSlots reservedSlots maxTotal minPerCategory
      rfl
    omega

/-- C10: the returned discrepancy list holds at most 5000 entries; when the
total number of emitted discrepancies is within 5000 the list is exactly the
emitted multiset and `has_more` is false; when the total exceeds 5000 every
type that occurs contributes at least `min(100, its size)` entries; and
within each type the returned entries are in descending `|cost_difference|`
order. -/
theorem C10_sampled_output :
    ∀ ds : List Discrepancy,
      (returnedDiscrepancies ds).length ≤ 5000 ∧
      (ds.length ≤ 5000 → (returnedDiscrepancies ds).Perm ds ∧ hasMore ds = false) ∧
      (5000 < ds.length → ∀ t : DiscType,
        (ds.filter (fun d => decide (d.dtype = t))).length ≠ 0 →
        min 100 (ds.filter (fun d => decide (d.dtype = t))).length ≤
          ((returnedDiscrepancies ds).filter (fun d => decide (d.dtype = t))).length) ∧
      (∀ t : DiscType,
        ((returnedDiscrepancies ds).filter (fun d => decide (d.dtype = t))).Pairwise
          (fun a b => cdAbs b ≤ cdAbs a)) := by
  intro ds
  have hretlen : (returnedDiscrepancies ds).length = (sampledDiscrepancies ds).length :=
    (List.perm_insertionSort finalLE _).length_eq
  refine ⟨by rw [hretlen]; exact sampled_length_le ds, ?_, ?_, ?_⟩
  · intro h
    have hsam : sampledDiscrepancies ds = ds := by
      unfold sampledDiscrepancies
      rw [if_pos (by simpa [maxTotal] using h)]
    constructor
    · show (returnedDiscrepancies ds).Perm ds
      unfold returnedDiscrepancies
      rw [hsam]
      exact List.perm_insertionSort finalLE ds
    · unfold hasMore
      rw [hretlen, hsam]
      simp
  · intro h t hne
    have hsam : sampledDiscrepancies ds =
        (typesOf ds).flatMap (fun t => (byTypeSorted ds t).take (takeCountFor ds t)) := by
      unfold sampledDiscrepancies
      rw [if_neg (by simp [maxTotal]; omega)]
    have hfillen : ((returnedDiscrepancies ds).filter
        (fun d => decide (d.dtype = t))).length =
        ((sampledDiscrepancies ds).filter (fun d => decide (d.dtype = t))).length :=
      ((List.perm_insertionSort finalLE _).filter _).length_eq
    have htmem : t ∈ typesOf ds := by
      have : ∃ x, x ∈ ds.filter (fun d => decide (d.dtype = t)) := by
        cases hfil : ds.filter (fun d => decide (d.dtype = t)) with
        | nil => rw [hfil] at hne; simp at hne
        | cons a l => exact ⟨a, hfil ▸ List.mem_cons_self a l⟩
      obtain ⟨x, hx⟩ := this
      have hxd : x.dtype = t := by simpa using List.of_mem_filter hx
      exact List.mem_dedup.mpr
        (List.mem_map.mpr ⟨x, List.mem_of_mem_filter hx, hxd⟩)
    have hbuck := filter_flatMap_buckets (fun d : Discrepancy => d.dtype)
      (fun t => (byTypeSorted ds t).take (takeCountFor ds t))
      (fun k x hx => mem_byTypeSorted ds k x (List.take_subset _ _ hx))
      (typesOf ds) (List.nodup_dedup _) t
    rw [hfillen, hsam, hbuck, if_pos htmem, length_bucket_take]
    unfold takeCountFor minPerCategory
    exact le_min (min_le_right 100 _)
      (le_trans (min_le_left 100 _) (le_max_left 100 _))
  · intro t
    have hsorted : (returnedDiscrepancies ds).Pairwise finalLE :=
      List.sorted_insertionSort finalLE _
    have hfil : ((returnedDiscrepancies ds).filter
        (fun d => decide (d.dtype = t))).Pairwise finalLE :=
      hsorted.filter _
    refine hfil.imp_of_mem ?_
    intro a b ha hb hab
    have hat : a.dtype = t := by simpa using List.of_mem_filter ha
    have hbt : b.dtype = t := by simpa using List.of_mem_filter hb
    rcases hab with hlt | ⟨_, hle⟩
    · rw [hat, hbt] at hlt
      exact absurd hlt (lt_irrefl _)
    · exact hle

/-! ## The bounded collector (C7, modelled from the spec) -/

theorem foldl_min_le_init (l : List ℚ) (a : ℚ) : l.foldl min a ≤ a := by
  induction l generalizing a with
  | nil => exact le_refl a
  | cons b t ih =>
    calc (b :: t).foldl min a = t.foldl min (min a b) := rfl
      _ ≤ min a b := ih _
      _ ≤ a := min_le_left a b

theorem foldl_min_le_mem (l : List ℚ) (a : ℚ) : ∀ x ∈ l, l.foldl min a ≤ x := by
  induction l generalizing a with
  | nil => simp
  | cons b t ih =>
    intro x hx
    rcases List.mem_cons.mp hx with h | h
    · subst h
      calc (x :: t).foldl min a = t.foldl min (min a x) := rfl
        _ ≤ min a x := foldl_min_le_init t _
        _ ≤ x := min_le_right a x
    · exact ih (min a b) x h

theorem foldl_min_mem (l : List ℚ) (a : ℚ) : l.foldl min a = a ∨ l.foldl min a ∈ l := by
  induction l generalizing a with
  | nil => exact Or.inl rfl
  | cons b t ih =>
    rcases ih (min a b) with h | h
    · rcases min_choice a b with hm | hm
      · left
        show t.foldl min (min a b) = a
        rw [h, hm]
      · right
        show t.foldl min (min a b) ∈ b :: t
        rw [h, hm]
        exact List.mem_cons_self b t
    · exact Or.inr (List.mem_cons_of_mem b h)

theorem minRetainedAbs_le (l : List Discrepancy) :
    ∀ x ∈ l, minRetainedAbs l ≤ cdAbs x := by
  intro x hx
  cases l with
  | nil => exact absurd hx (List.not_mem_nil x)
  | cons d rest =>
    have hfold : minRetainedAbs (d :: rest) = (rest.map cdAbs).foldl min (cdAbs d) := by
      unfold minRetainedAbs
      rw [List.foldl_map]
    rcases List.mem_cons.mp hx with h | h
    · subst h
      rw [hfold]
      exact foldl_min_le_init _ _
    · rw [hfold]
      exact foldl_min_le_mem _ _ (cdAbs x) (List.mem_map.mpr ⟨x, h, rfl⟩)

theorem minRetainedAbs_attained (l : List Discrepancy) (h : l ≠ []) :
    ∃ x ∈ l, cdAbs x = minRetainedAbs l := by
  cases l with
  | nil => exact absurd rfl h
  | cons d rest =>
    have hfold : minRetainedAbs (d :: rest) = (rest.map cdAbs).foldl min (cdAbs d) := by
      unfold minRetainedAbs
      rw [List.foldl_map]
    rcases foldl_min_mem (rest.map cdAbs) (cdAbs d) with hm | hm
    · exact ⟨d, List.mem_cons_self d rest, by rw [hfold, hm]⟩
    · obtain ⟨x, hxmem, hxeq⟩ := List.mem_map.mp hm
      exact ⟨x, List.mem_cons_of_mem d hxmem, by rw [hfold, hxeq]⟩

theorem replaceFirstMin_decomp (m : ℚ) (d : Discrepancy) :
    ∀ l : List Discrepancy, (∃ x ∈ l, cdAbs x = m) →
      ∃ l₁ x l₂, l = l₁ ++ x :: l₂ ∧ cdAbs x = m ∧
        replaceFirstMin m d l = l₁ ++ d :: l₂ := by
  intro l
  induction l with
  | nil => intro h; simp at h
  | cons y ys ih =>
    intro h
    by_cases hy : cdAbs y = m
    · exact ⟨[], y, ys, rfl, hy, by simp [replaceFirstMin, hy]⟩
    · have hys : ∃ x ∈ ys, cdAbs x = m := by
        obtain ⟨x, hx, hxm⟩ := h
        rcases List.mem_cons.mp hx with hxy | hxy
        · exact absurd (hxy ▸ hxm) hy
        · exact ⟨x, hxy, hxm⟩
      obtain ⟨l₁, x, l₂, heq, hxm, hrep⟩ := ih hys
      exact ⟨y :: l₁, x, l₂, by rw [List.cons_append, ← heq], hxm,
        by rw [replaceFirstMin, if_neg hy, hrep, List.cons_append]⟩

theorem collectorAdd_preserves (st : CollectorState) (d : Discrepancy)
    (seen : List Discrepancy) (h : collInv seen st) :
    collInv (seen ++ [d]) (collectorAdd st d) := by
  obtain ⟨h1, h2, h3, h4, h5⟩ := h
  have hK : collectorK = 1000 := rfl
  unfold collectorAdd
  split_ifs with hlen hrep
  · -- append: the list is not yet full
    have hseen : seen.length = st.retained.length := by
      omega
    have hmeq : (st.retained : Multiset Discrepancy) = (seen : Multiset Discrepancy) := by
      refine Multiset.eq_of_le_of_card_le ?_ ?_
      · exact Multiset.le_iff_count.mpr (fun a => by
          simpa [Multiset.coe_count] using h4 a)
      · simpa [Multiset.coe_card] using hseen.le
    have hcnt : ∀ a : Discrepancy, st.retained.count a = seen.count a := by
      intro a
      have := congrArg (Multiset.count a) hmeq
      simpa [Multiset.coe_count] using this
    refine ⟨by simp [h1], by simp [h2], ?_, ?_, ?_⟩
    · simp only [List.length_append, List.length_cons, List.length_nil]
      omega
    · intro a
      have h4a := h4 a
      simp only [List.count_append]
      omega
    · intro a b _ hcount
      simp only [List.count_append] at hcount
      have := hcnt a
      omega
  · -- replace the entry carrying the minimum
    have hKlen : st.retained.length = collectorK := by
      omega
    have hne : st.retained ≠ [] := by
      intro hnil
      rw [hnil] at hKlen
      simp [collectorK] at hKlen
    obtain ⟨l₁, x, l₂, heq, hxm, hrepl⟩ :=
      replaceFirstMin_decomp (minRetainedAbs st.retained) d st.retained
        (minRetainedAbs_attained st.retained hne)
    have hmle : ∀ y ∈ st.retained, minRetainedAbs st.retained ≤ cdAbs y :=
      minRetainedAbs_le st.retained
    refine ⟨by simp [h1], by simp [h2], ?_, ?_, ?_⟩
    · rw [hrepl]
      have hsame : (l₁ ++ d :: l₂).length = (l₁ ++ x :: l₂).length := by simp
      rw [hsame, ← heq, hKlen]
      simp only [List.length_append, List.length_cons, List.length_nil]
      omega
    · intro a
      have h4a := h4 a
      rw [heq] at h4a
      rw [hrepl]
      simp only [List.count_append, List.count_cons, List.count_nil,
        beq_iff_eq] at h4a ⊢
      by_cases hxa : x = a <;> by_cases hda : d = a <;>
        simp only [hxa, hda, if_true, if_false] at h4a ⊢ <;> omega
    · intro a b hb hcount
      have hble : minRetainedAbs st.retained ≤ cdAbs b := by
        rw [hrepl] at hb
        rcases List.mem_append.mp hb with hb1 | hb2
        · exact hmle b (heq ▸ List.mem_append_left _ hb1)
        · rcases List.mem_cons.mp hb2 with hbd | hbl
          · exact hbd ▸ le_of_lt hrep
          · exact hmle b (heq ▸ List.mem_append_right _ (List.mem_cons_of_mem x hbl))
      by_cases hax : a = x
      · calc cdAbs a = minRetainedAbs st.retained := hax ▸ hxm
          _ ≤ cdAbs b := hble
      · have h4a := h4 a
        have hxmem : x ∈ st.retained := heq ▸ List.mem_append_right _
          (List.mem_cons_self x l₂)
        have hcount' : st.retained.count a < seen.count a := by
          rw [heq] at h4a ⊢
          rw [hrepl] at hcount
          simp only [List.count_append, List.count_cons, List.count_nil,
            beq_iff_eq] at h4a hcount ⊢
          have hxa : ¬ (x = a) := fun hh => hax hh.symm
          by_cases hda : d = a <;>
            simp only [hxa, hda, if_true, if_false] at h4a hcount ⊢ <;> omega
        calc cdAbs a ≤ cdAbs x := h5 a x hxmem hcount'
          _ = minRetainedAbs st.retained := hxm
          _ ≤ cdAbs b := hble
  · -- drop the newcomer
    have hmle : ∀ y ∈ st.retained, minRetainedAbs st.retained ≤ cdAbs y :=
      minRetainedAbs_le st.retained
    refine ⟨by simp [h1], by simp [h2], ?_, ?_, ?_⟩
    · rw [h3]
      simp only [List.length_append, List.length_cons, List.length_nil]
      omega
    · intro a
      have := h4 a
      simp only [List.count_append]
      omega
    · intro a b hb hcount
      simp only [List.count_append, List.count_cons, List.count_nil,
        beq_iff_eq] at hcount
      by_cases hcnt : st.retained.count a < seen.count a
      · exact h5 a b hb hcnt
      · have hda : d = a := by
          by_contra hne
          simp only [hne, if_false] at hcount
          omega
        calc cdAbs a = cdAbs d := by rw [hda]
          _ ≤ minRetainedAbs st.retained := not_lt.mp hrep
          _ ≤ cdAbs b := hmle b hb

theorem collect_fold_invariant :
    ∀ (ds : List Discrepancy) (st : CollectorState) (seen : List Discrepancy),
      collInv seen st → collInv (seen ++ ds) (ds.foldl collectorAdd st) := by
  intro ds
  induction ds with
  | nil => intro st seen h; simpa using h
  | cons d rest ih =>
    intro st seen h
    have hstep := collectorAdd_preserves st d seen h
    have := ih (collectorAdd st d) (seen ++ [d]) hstep
    simpa using this

theorem collect_invariant (ds : List Discrepancy) : collInv ds (collect ds) := by
  have hinit : collInv [] collectorInit := by
    refine ⟨rfl, rfl, by simp [collectorInit, collectorK], ?_, ?_⟩
    · intro a
      simp [collectorInit]
    · intro a b hb
      simp [collectorInit] at hb
  have := collect_fold_invariant ds collectorInit [] hinit
  simpa [collect] using this

/-- C7 (modelled from the spec — the collector's code is not among the
available sources): fed the discrepancies of one type, the bounded collector
retains at most `K = 1000` of them, exactly `min(count, 1000)`; every
retained occurrence comes from the stream; any stream occurrence it did not
retain has `|cost_difference|` no larger than every retained entry (the
retained list is a top-1000 selection by `|cost_difference|`); the running
count sees every discrepancy; and one `add` appends while the list is short,
and once full replaces the minimum entry exactly when the newcomer's
magnitude is strictly greater. -/
theorem C7_bounded_collector :
    ∀ (ds : List Discrepancy) (t : DiscType),
      (collect (ds.filter (fun x => decide (x.dtype = t)))).retained.length ≤ 1000 ∧
      (collect (ds.filter (fun x => decide (x.dtype = t)))).retained.length =
        min (ds.filter (fun x => decide (x.dtype = t))).length 1000 ∧
      (collect (ds.filter (fun x => decide (x.dtype = t)))).count =
        (ds.filter (fun x => decide (x.dtype = t))).length ∧
      (∀ a, (collect (ds.filter (fun x => decide (x.dtype = t)))).retained.count a ≤
        (ds.filter (fun x => decide (x.dtype = t))).count a) ∧
      (∀ a b, b ∈ (collect (ds.filter (fun x => decide (x.dtype = t)))).retained →
        (collect (ds.filter (fun x => decide (x.dtype = t)))).retained.count a <
          (ds.filter (fun x => decide (x.dtype = t))).count a →
        cdAbs a ≤ cdAbs b) ∧
      (∀ (st : CollectorState) (d : Discrepancy), st.retained.length < 1000 →
        (collectorAdd st d).retained = st.retained ++ [d]) ∧
      (∀ (st : CollectorState) (d : Discrepancy), ¬ st.retained.length < 1000 →
        minRetainedAbs st.retained < cdAbs d →
        (collectorAdd st d).retained =
          replaceFirstMin (minRetainedAbs st.retained) d st.retained) ∧
      (∀ (st : CollectorState) (d : Discrepancy), ¬ st.retained.length < 1000 →
        ¬ minRetainedAbs st.retained < cdAbs d →
        (collectorAdd st d).retained = st.retained) := by
  intro ds t
  obtain ⟨_, _, h3, h4, h5⟩ := collect_invariant (ds.filter (fun x => decide (x.dtype = t)))
  have hK : collectorK = 1000 := rfl
  refine ⟨by rw [h3]; omega,
    by rw [h3]; rfl,
    (collect_invariant _).1,
    h4, h5, ?_, ?_, ?_⟩
  · intro st d hlen
    unfold collectorAdd
    rw [if_pos (by omega)]
  · intro st d hlen hgt
    unfold collectorAdd
    rw [if_neg (by omega), if_pos hgt]
  · intro st d hlen hng
    unfold collectorAdd
    rw [if_neg (by omega), if_neg hng]

end CDRCompare
